import Mathlib

set_option linter.unusedSectionVars false

/-!
Shallow embedding of the `bucketmap` Go package: a sharded key-value map.
A Go `map[K]V` value is embedded as an association list with no duplicate
keys reachable by the operations; a nil Go map is `Option.none`.  Each
`bucket` holds such an optional table; a `Map` holds the bucket slice and
the routing hash function.  Locks are irrelevant to the sequential
functional behaviour and are not modelled.  Machine integers: the hash
value is a `Nat` standing for the Go `uint64` (only its residue modulo the
bucket count is ever used, so the 2^64 wrap is immaterial); the variadic
`buckets ...int` argument of `Make` is a `List Int` since Go `int` is
signed.
-/

namespace BucketMap

/-- Association-list lookup, embedding the Go expression `m[key]`:
`none` when the key is absent (Go: zero value with `ok = false`). -/
def goLookup {K V : Type} [DecidableEq K] : List (K × V) → K → Option V
  | [], _ => none
  | (a, b) :: tl, k => if a = k then some b else goLookup tl k

/-- Association-list update, embedding the Go statement `m[key] = value`:
replace the binding in place if present, otherwise add it. -/
def goAssign {K V : Type} [DecidableEq K] : List (K × V) → K → V → List (K × V)
  | [], k, v => [(k, v)]
  | (a, b) :: tl, k, v => if a = k then (k, v) :: tl else (a, b) :: goAssign tl k v

/-- Association-list removal, embedding the Go builtin `delete(m, key)`. -/
def goDelete {K V : Type} [DecidableEq K] (l : List (K × V)) (k : K) : List (K × V) :=
  l.filter (fun p => !decide (p.1 = k))

/-- One shard: `type bucket[K comparable, V any] struct { sync.RWMutex; m map[K]V }`.
The lock is not modelled; `m = none` is the nil Go map. -/
structure Bucket (K V : Type) where
  m : Option (List (K × V))

/-- The entries of a bucket's table; a nil map reads as empty. -/
def Bucket.entries {K V : Type} (b : Bucket K V) : List (K × V) :=
  b.m.getD []

/-- Go: `type Map[K comparable, V any] struct { buckets []bucket[K, V]; hash unsafehash.HashFunc[K] }` -/
structure Map (K V : Type) where
  buckets : List (Bucket K V)
  hash : K → Nat

variable {K V : Type} [DecidableEq K] [Inhabited V]

/-- Constructor `Make` with the external hash provider passed explicitly
(the Go code obtains it from `unsafehash.Map[K]()`):
`n := 31; if len(buckets) > 0 && buckets[0] > 0 { n = buckets[0] }`,
and with a single bucket the hash is replaced by the constant 0. -/
def Make (hash : K → Nat) (buckets : List Int) : Map K V :=
  let n : Nat :=
    match buckets with
    | b :: _ => if 0 < b then b.toNat else 31
    | [] => 31
  { buckets := List.replicate n ⟨none⟩
    hash := if n = 1 then fun _ => 0 else hash }

/-- The routing index: `m.hash(key) % uint64(len(m.buckets))`. -/
def Map.idx (m : Map K V) (key : K) : Nat :=
  m.hash key % m.buckets.length

/-- Go: `func (m *Map[K, V]) get(key K) *bucket[K, V]`: the bucket the key
routes to.  Out-of-range access (impossible for maps built by `Make`)
falls back to an empty bucket. -/
def Map.bkt (m : Map K V) (key : K) : Bucket K V :=
  m.buckets.getD (m.idx key) ⟨none⟩

/-- The Go read `bkt.m[key]` performed by every operation: the value the
map currently associates with `key`, if any. -/
def Map.find (m : Map K V) (key : K) : Option V :=
  goLookup (m.bkt key).entries key

/-- Operation `Load` returns `(value, ok)`; the Go zero value is `default`. -/
def Map.Load (m : Map K V) (key : K) : V × Bool :=
  ((m.find key).getD default, (m.find key).isSome)

/-- Operation `Store`: lazily allocate the bucket's table (`getD []`) and assign. -/
def Map.Store (m : Map K V) (key : K) (value : V) : Map K V :=
  { m with buckets :=
      m.buckets.set (m.idx key) ⟨some (goAssign (m.bkt key).entries key value)⟩ }

/-- Operation `Delete`: `delete(bkt.m, key)`; on a nil table this is a no-op and the
table stays nil, hence the `Option.map`. -/
def Map.Delete (m : Map K V) (key : K) : Map K V :=
  { m with buckets :=
      m.buckets.set (m.idx key) ⟨(m.bkt key).m.map (fun t => goDelete t key)⟩ }

/-- Operation `Clear`: `clear(b.m)` on every bucket; a nil table stays nil, a
non-nil table becomes empty. -/
def Map.Clear (m : Map K V) : Map K V :=
  { m with buckets := m.buckets.map (fun b => ⟨b.m.map (fun _ => ([] : List (K × V)))⟩) }

/-- Operation `LoadAndDelete`: read, and delete only when the key was present
(`if loaded { delete(bkt.m, key) }`); the delete statement is exactly the
body of `Delete` on the same bucket. -/
def Map.LoadAndDelete (m : Map K V) (key : K) : (V × Bool) × Map K V :=
  match m.find key with
  | some v => ((v, true), m.Delete key)
  | none => ((default, false), m)

/-- Operation `LoadOrStore`: the write branch (`if bkt.m == nil { ... }; bkt.m[key] = value`)
is exactly the body of `Store` on the same bucket. -/
def Map.LoadOrStore (m : Map K V) (key : K) (value : V) : (V × Bool) × Map K V :=
  match m.find key with
  | some actual => ((actual, true), m)
  | none => ((value, false), m.Store key value)

/-- Operation `LoadOrStoreFunc`, instrumented: the final `Nat` counts how many times
`newValue` is invoked (the Go code has a single call site, reached only on
the absent branch). -/
def Map.LoadOrStoreFunc (m : Map K V) (key : K) (newValue : Unit → V) :
    (V × Bool) × Map K V × Nat :=
  match m.find key with
  | some actual => ((actual, true), m, 0)
  | none =>
    let value := newValue ()
    ((value, false), m.Store key value, 1)

/-- Operation `Swap`: read the previous binding, then store unconditionally (the
write statements are exactly the body of `Store` on the same bucket). -/
def Map.Swap (m : Map K V) (key : K) (value : V) : (V × Bool) × Map K V :=
  (((m.find key).getD default, (m.find key).isSome), m.Store key value)

/-- The inner loop of one bucket during `Iter`: run the caller's callback
(state-threaded, so closures over mutable state are expressible) over the
bucket's entries; stop at the first `false`.  Returns the final callback
state, the pairs handed to the callback, and the `broken` flag. -/
def iterEntries {S : Type} (yield : S → K → V → Bool × S) :
    List (K × V) → S → (S × List (K × V)) × Bool
  | [], s => ((s, []), false)
  | (k, v) :: tl, s =>
    let r := yield s k v
    if r.1 then
      let rest := iterEntries yield tl r.2
      ((rest.1.1, (k, v) :: rest.1.2), rest.2)
    else ((r.2, [(k, v)]), true)

/-- The outer loop of `Iter`: visit the buckets' entry lists in order,
breaking out entirely once a bucket reports `broken`. -/
def iterBuckets {S : Type} (yield : S → K → V → Bool × S) :
    List (List (K × V)) → S → S × List (K × V)
  | [], s => (s, [])
  | es :: rest, s =>
    let r := iterEntries yield es s
    if r.2 then r.1
    else
      let r2 := iterBuckets yield rest r.1.1
      (r2.1, r.1.2 ++ r2.2)

/-- One pass of `Iter`: the Go code shuffles the bucket indices into
`order` (nondeterministic, so the order is a parameter here) and then runs
the two nested loops.  `(m.iterPass order yield s).2` is the list of pairs
the pass hands to the callback. -/
def Map.iterPass (m : Map K V) (order : List Nat) {S : Type}
    (yield : S → K → V → Bool × S) (s : S) : S × List (K × V) :=
  iterBuckets yield (order.map (fun i => (m.buckets.getD i ⟨none⟩).entries)) s

/-- A callback whose decision may depend on how many pairs it has seen:
the threaded state is the count of invocations so far. -/
def countedYield (g : Nat → K → V → Bool) : Nat → K → V → Bool × Nat :=
  fun c k v => (g c k v, c + 1)

/-- The operations of the public API whose outcome is a value/flag pair or
nothing; `Iter` is treated separately.  `loadOrStoreFunc` carries the value
its constructor would build (the constructor is the pure closure on it). -/
inductive Op (K V : Type) where
  | load (key : K)
  | store (key : K) (value : V)
  | del (key : K)
  | loadAndDelete (key : K)
  | loadOrStore (key : K) (value : V)
  | loadOrStoreFunc (key : K) (value : V)
  | swap (key : K) (value : V)
  | clear

/-- Run one operation, returning its visible outcome (`none` for the
operations that return nothing) and the next map state. -/
def Map.runOp (m : Map K V) : Op K V → Option (V × Bool) × Map K V
  | .load k => (some (m.Load k), m)
  | .store k v => (none, m.Store k v)
  | .del k => (none, m.Delete k)
  | .loadAndDelete k => (some (m.LoadAndDelete k).1, (m.LoadAndDelete k).2)
  | .loadOrStore k v => (some (m.LoadOrStore k v).1, (m.LoadOrStore k v).2)
  | .loadOrStoreFunc k v =>
      (some (m.LoadOrStoreFunc k (fun _ => v)).1, (m.LoadOrStoreFunc k (fun _ => v)).2.1)
  | .swap k v => (some (m.Swap k v).1, (m.Swap k v).2)
  | .clear => (none, m.Clear)

/-- Run a sequence of operations, collecting every visible outcome. -/
def Map.runOps : Map K V → List (Op K V) → List (Option (V × Bool))
  | _, [] => []
  | m, op :: rest => (m.runOp op).1 :: (m.runOp op).2.runOps rest

theorem goLookup_goAssign_self (l : List (K × V)) (k : K) (v : V) :
    goLookup (goAssign l k v) k = some v := by
  induction l with
  | nil => simp [goAssign, goLookup]
  | cons p tl ih =>
    by_cases h : p.1 = k
    · simp [goAssign, goLookup, h]
    · simp [goAssign, goLookup, h, ih]

theorem goLookup_goAssign_ne (l : List (K × V)) (k q : K) (v : V) (h : q ≠ k) :
    goLookup (goAssign l k v) q = goLookup l q := by
  have hkq : ¬ k = q := fun hh => h hh.symm
  induction l with
  | nil => simp [goAssign, goLookup, hkq]
  | cons p tl ih =>
    by_cases hp : p.1 = k
    · have hpq : ¬ p.1 = q := by rw [hp]; exact hkq
      simp [goAssign, hp, goLookup, hkq, hpq]
    · simp only [goAssign, if_neg hp, goLookup]
      rw [ih]

theorem goLookup_goDelete_self (l : List (K × V)) (k : K) :
    goLookup (goDelete l k) k = none := by
  induction l with
  | nil => rfl
  | cons p tl ih =>
    by_cases h : p.1 = k
    · rw [goDelete, List.filter_cons, if_neg (by simp [h])]
      exact ih
    · rw [goDelete, List.filter_cons, if_pos (by simp [h]), goLookup, if_neg h]
      exact ih

theorem goLookup_goDelete_ne (l : List (K × V)) (k q : K) (h : q ≠ k) :
    goLookup (goDelete l k) q = goLookup l q := by
  induction l with
  | nil => rfl
  | cons p tl ih =>
    by_cases hp : p.1 = k
    · have hpq : ¬ p.1 = q := by rw [hp]; exact fun hh => h hh.symm
      rw [goDelete, List.filter_cons, if_neg (by simp [hp]), goLookup, if_neg hpq]
      exact ih
    · rw [goDelete, List.filter_cons, if_pos (by simp [hp]), goLookup, goLookup]
      by_cases hpq : p.1 = q
      · rw [if_pos hpq, if_pos hpq]
      · rw [if_neg hpq, if_neg hpq]
        exact ih

theorem goDelete_of_lookup_none (l : List (K × V)) (k : K)
    (h : goLookup l k = none) : goDelete l k = l := by
  induction l with
  | nil => rfl
  | cons p tl ih =>
    rw [goLookup] at h
    by_cases hp : p.1 = k
    · rw [if_pos hp] at h
      exact absurd h (by simp)
    · rw [if_neg hp] at h
      rw [goDelete, List.filter_cons, if_pos (by simp [hp])]
      exact congrArg (List.cons p) (ih h)

theorem getD_set_self {α : Type _} (l : List α) (i : Nat) (x d : α)
    (h : i < l.length) : (l.set i x).getD i d = x := by
  simp [List.getD_eq_getElem?_getD, List.getElem?_set, h]

theorem getD_set_ne {α : Type _} (l : List α) (i j : Nat) (x d : α)
    (h : i ≠ j) : (l.set i x).getD j d = l.getD j d := by
  simp [List.getD_eq_getElem?_getD, List.getElem?_set_ne h]

theorem set_getD_self {α : Type _} (l : List α) (i : Nat) (d : α)
    (h : i < l.length) : l.set i (l.getD i d) = l := by
  apply List.ext_getElem?
  intro n
  rw [List.getElem?_set]
  by_cases hin : i = n
  · subst hin
    rw [if_pos rfl, if_pos h, List.getD_eq_getElem _ _ h, List.getElem?_eq_getElem h]
  · rw [if_neg hin]

theorem length_Store (m : Map K V) (k : K) (v : V) :
    (m.Store k v).buckets.length = m.buckets.length := by
  simp [Map.Store]

theorem length_Delete (m : Map K V) (k : K) :
    (m.Delete k).buckets.length = m.buckets.length := by
  simp [Map.Delete]

theorem length_Clear (m : Map K V) :
    (m.Clear).buckets.length = m.buckets.length := by
  simp [Map.Clear]

theorem idx_Store (m : Map K V) (k q : K) (v : V) :
    (m.Store k v).idx q = m.idx q := by
  simp [Map.idx, Map.Store]

theorem idx_Delete (m : Map K V) (k q : K) :
    (m.Delete k).idx q = m.idx q := by
  simp [Map.idx, Map.Delete]

theorem find_Store (m : Map K V) (k q : K) (v : V) (hpos : 0 < m.buckets.length) :
    (m.Store k v).find q = if q = k then some v else m.find q := by
  have hlt : m.idx k < m.buckets.length := Nat.mod_lt _ hpos
  by_cases hik : m.idx q = m.idx k
  · have hb : (m.Store k v).bkt q = ⟨some (goAssign (m.bkt k).entries k v)⟩ := by
      rw [Map.bkt, idx_Store, hik]
      show (m.buckets.set (m.idx k) _).getD (m.idx k) _ = _
      exact getD_set_self _ _ _ _ hlt
    by_cases hqk : q = k
    · subst hqk
      rw [Map.find, hb, if_pos rfl]
      simp [Bucket.entries, goLookup_goAssign_self]
    · have hbq : m.bkt q = m.bkt k := by rw [Map.bkt, Map.bkt, hik]
      rw [Map.find, hb, if_neg hqk, Map.find, hbq]
      simp [Bucket.entries, goLookup_goAssign_ne _ _ _ _ hqk]
  · have hqk : ¬ q = k := fun h => hik (by rw [h])
    have hb : (m.Store k v).bkt q = m.bkt q := by
      rw [Map.bkt, idx_Store]
      show (m.buckets.set (m.idx k) _).getD (m.idx q) _ = _
      rw [getD_set_ne _ _ _ _ _ (fun h => hik h.symm), Map.bkt]
    rw [Map.find, hb, if_neg hqk, Map.find]

theorem find_Delete (m : Map K V) (k q : K) (hpos : 0 < m.buckets.length) :
    (m.Delete k).find q = if q = k then none else m.find q := by
  have hlt : m.idx k < m.buckets.length := Nat.mod_lt _ hpos
  by_cases hik : m.idx q = m.idx k
  · have hb : (m.Delete k).bkt q = ⟨(m.bkt k).m.map (fun t => goDelete t k)⟩ := by
      rw [Map.bkt, idx_Delete, hik]
      show (m.buckets.set (m.idx k) _).getD (m.idx k) _ = _
      exact getD_set_self _ _ _ _ hlt
    have hbq : m.bkt q = m.bkt k := by rw [Map.bkt, Map.bkt, hik]
    rw [Map.find, hb, Map.find, hbq]
    rcases hm : (m.bkt k).m with _ | t
    · by_cases hqk : q = k <;> simp [Bucket.entries, hm, hqk, goLookup]
    · by_cases hqk : q = k
      · subst hqk
        simp [Bucket.entries, hm, goLookup_goDelete_self]
      · simp [Bucket.entries, hm, hqk, goLookup_goDelete_ne _ _ _ hqk]
  · have hqk : ¬ q = k := fun h => hik (by rw [h])
    have hb : (m.Delete k).bkt q = m.bkt q := by
      rw [Map.bkt, idx_Delete]
      show (m.buckets.set (m.idx k) _).getD (m.idx q) _ = _
      rw [getD_set_ne _ _ _ _ _ (fun h => hik h.symm), Map.bkt]
    rw [Map.find, hb, if_neg hqk, Map.find]

theorem entries_bkt_Clear (m : Map K V) (q : K) :
    ((m.Clear).bkt q).entries = [] := by
  rw [Map.bkt]
  show ((m.buckets.map
      (fun b => (⟨b.m.map (fun _ => ([] : List (K × V)))⟩ : Bucket K V))).getD
      ((m.Clear).idx q) ⟨none⟩).entries = []
  rw [List.getD_eq_getElem?_getD, List.getElem?_map]
  rcases m.buckets[(m.Clear).idx q]? with _ | b
  · rfl
  · rcases b with ⟨_ | t⟩ <;> rfl

theorem find_Clear (m : Map K V) (q : K) : (m.Clear).find q = none := by
  rw [Map.find, entries_bkt_Clear]
  rfl

theorem find_Make (hash : K → Nat) (bs : List Int) (q : K) :
    (Make hash bs : Map K V).find q = none := by
  have hbs : (Make hash bs : Map K V).buckets =
      List.replicate
        (match bs with
         | b :: _ => if 0 < b then b.toNat else 31
         | [] => 31) (⟨none⟩ : Bucket K V) := by
    rcases bs with _ | ⟨b, tl⟩ <;> rfl
  have hb : ((Make hash bs : Map K V).bkt q) = ⟨none⟩ := by
    rw [Map.bkt, hbs, List.getD_eq_getElem?_getD, List.getElem?_replicate]
    split <;> rfl
  rw [Map.find, hb]
  rfl

theorem length_Make (hash : K → Nat) (bs : List Int) :
    (Make hash bs : Map K V).buckets.length =
      (match bs with
       | b :: _ => if 0 < b then b.toNat else 31
       | [] => 31) := by
  rcases bs with _ | ⟨b, tl⟩ <;> simp [Make]

/-- C1: for every key `k` and value `v`, `Store(k, v)` followed by `Load(k)` on
the same `Map` returns `(v, true)`; the hypothesis `0 < buckets.length` holds for
every map produced by `Make`. -/
theorem store_then_load (m : Map K V) (k : K) (v : V)
    (hpos : 0 < m.buckets.length) :
    (m.Store k v).Load k = (v, true) := by
  have h := find_Store m k k v hpos
  rw [if_pos rfl] at h
  simp [Map.Load, h]

theorem store_then_load_inst :
    0 < ((Make (fun k => k) [(3 : Int)] : Map Nat Nat)).buckets.length ∧
    (((Make (fun k => k) [(3 : Int)] : Map Nat Nat)).Store 5 7).Load 5 = (7, true) :=
  ⟨by decide, store_then_load (Make (fun k => k) [(3 : Int)]) 5 7 (by decide)⟩

/-- C5: `Delete(k)` removes the entry for `k` if present (a following `Load(k)`
yields the zero value and `false`) and is a no-op — the map is literally
unchanged — when `k` is absent. -/
theorem delete_spec (m : Map K V) (k : K) (hpos : 0 < m.buckets.length) :
    ((m.Delete k).Load k = ((default : V), false)) ∧
    (m.find k = none → m.Delete k = m) := by
  constructor
  · have h := find_Delete m k k hpos
    rw [if_pos rfl] at h
    simp [Map.Load, h]
  · intro h
    have hlt : m.idx k < m.buckets.length := Nat.mod_lt _ hpos
    have hbm : (m.bkt k).m.map (fun t => goDelete t k) = (m.bkt k).m := by
      rcases hb : (m.bkt k).m with _ | t
      · rfl
      · have h2 := h
        rw [Map.find, Bucket.entries, hb] at h2
        have ht : goDelete t k = t := goDelete_of_lookup_none t k (by simpa using h2)
        simp [ht]
    show ({ m with buckets :=
        m.buckets.set (m.idx k) ⟨(m.bkt k).m.map (fun t => goDelete t k)⟩ } : Map K V) = m
    rw [hbm]
    have hset : m.buckets.set (m.idx k) (⟨(m.bkt k).m⟩ : Bucket K V) = m.buckets := by
      have heta : (⟨(m.bkt k).m⟩ : Bucket K V) = m.bkt k := rfl
      rw [heta]
      exact set_getD_self m.buckets (m.idx k) ⟨none⟩ hlt
    rw [hset]

theorem delete_spec_inst :
    (((Make (fun k => k) [(3 : Int)] : Map Nat Nat).Store 5 7).Delete 5).Load 5
      = (default, false) ∧
    ((Make (fun k => k) [(3 : Int)] : Map Nat Nat).Delete 5
        = (Make (fun k => k) [(3 : Int)] : Map Nat Nat)) :=
  ⟨(delete_spec ((Make (fun k => k) [(3 : Int)] : Map Nat Nat).Store 5 7) 5 (by decide)).1,
   (delete_spec (Make (fun k => k) [(3 : Int)] : Map Nat Nat) 5 (by decide)).2 (by decide)⟩

/-- C6: after `Clear()` every previously present key reads as not-found, and the
map stays writable: a later `Store(k, v)` followed by `Load(k)` yields `(v, true)`. -/
theorem clear_spec (m : Map K V) (k : K) (v : V) (hpos : 0 < m.buckets.length) :
    ((m.Clear).Load k = ((default : V), false)) ∧
    (((m.Clear).Store k v).Load k = (v, true)) := by
  constructor
  · rw [Map.Load, find_Clear]
    rfl
  · have hlen : 0 < (m.Clear).buckets.length := by rw [length_Clear]; exact hpos
    have h := find_Store (m.Clear) k k v hlen
    rw [if_pos rfl] at h
    simp [Map.Load, h]

theorem clear_spec_inst :
    ((((Make (fun k => k) [(3 : Int)] : Map Nat Nat).Store 5 7).Clear).Load 5
      = (default, false)) ∧
    (((((Make (fun k => k) [(3 : Int)] : Map Nat Nat).Store 5 7).Clear).Store 5 9).Load 5
      = (9, true)) :=
  clear_spec ((Make (fun k => k) [(3 : Int)] : Map Nat Nat).Store 5 7) 5 9 (by decide)

/-- C8: `Make` uses the requested bucket count when it is positive, falls back to
31 when the count is omitted or not positive, and always yields at least one
bucket. -/
theorem make_bucket_count (hash : K → Nat) (bs : List Int) (c : Int) (rest : List Int) :
    (0 < c → (Make hash (c :: rest) : Map K V).buckets.length = c.toNat) ∧
    ((Make hash ([] : List Int) : Map K V).buckets.length = 31) ∧
    (c ≤ 0 → (Make hash (c :: rest) : Map K V).buckets.length = 31) ∧
    (1 ≤ (Make hash bs : Map K V).buckets.length) := by
  refine ⟨fun hc => ?_, ?_, fun hc => ?_, ?_⟩
  · simp [length_Make, hc]
  · simp [length_Make]
  · simp [length_Make, show ¬ (0 : Int) < c from by omega]
  · rcases bs with _ | ⟨b, tl⟩
    · simp [length_Make]
    · simp only [length_Make]
      split <;> omega

/-- C10: every single-key mutating operation on key `k` leaves the result of
`Load` on any other key `q ≠ k` unchanged. -/
theorem frame_other_keys (m : Map K V) (k q : K) (v : V) (f : Unit → V)
    (hpos : 0 < m.buckets.length) (hne : q ≠ k) :
    ((m.Store k v).Load q = m.Load q) ∧
    ((m.Delete k).Load q = m.Load q) ∧
    (((m.LoadAndDelete k).2).Load q = m.Load q) ∧
    (((m.LoadOrStore k v).2).Load q = m.Load q) ∧
    (((m.LoadOrStoreFunc k f).2.1).Load q = m.Load q) ∧
    (((m.Swap k v).2).Load q = m.Load q) := by
  have hS : ∀ w : V, (m.Store k w).find q = m.find q := fun w => by
    rw [find_Store m k q w hpos, if_neg hne]
  have hD : (m.Delete k).find q = m.find q := by
    rw [find_Delete m k q hpos, if_neg hne]
  refine ⟨?_, ?_, ?_, ?_, ?_, ?_⟩
  · rw [Map.Load, Map.Load, hS]
  · rw [Map.Load, Map.Load, hD]
  · rcases h : m.find k with _ | w
    · simp [Map.LoadAndDelete, h]
    · simp only [Map.LoadAndDelete, h]
      rw [Map.Load, Map.Load, hD]
  · rcases h : m.find k with _ | w
    · simp only [Map.LoadOrStore, h]
      rw [Map.Load, Map.Load, hS]
    · simp [Map.LoadOrStore, h]
  · rcases h : m.find k with _ | w
    · simp only [Map.LoadOrStoreFunc, h]
      rw [Map.Load, Map.Load, hS]
    · simp [Map.LoadOrStoreFunc, h]
  · show (m.Store k v).Load q = m.Load q
    rw [Map.Load, Map.Load, hS]

/-- C2: `LoadOrStore(k, v)` on a present key returns the existing value with
`loaded = true` and leaves the map unchanged; on an absent key it stores `v` and
returns `(v, false)`, and a second `LoadOrStore(k, v₂)` then returns the original
value with `loaded = true`, again without mutation. -/
theorem loadOrStore_spec (m : Map K V) (k : K) (v₁ v₂ : V)
    (hpos : 0 < m.buckets.length) :
    (∀ w, m.find k = some w → m.LoadOrStore k v₁ = ((w, true), m)) ∧
    (m.find k = none →
      m.LoadOrStore k v₁ = ((v₁, false), m.Store k v₁) ∧
      ((m.LoadOrStore k v₁).2).LoadOrStore k v₂ =
        ((v₁, true), (m.LoadOrStore k v₁).2)) := by
  constructor
  · intro w hw
    simp [Map.LoadOrStore, hw]
  · intro h
    have h1 : m.LoadOrStore k v₁ = ((v₁, false), m.Store k v₁) := by
      simp [Map.LoadOrStore, h]
    refine ⟨h1, ?_⟩
    rw [h1]
    have hfS : (m.Store k v₁).find k = some v₁ := by
      have h2 := find_Store m k k v₁ hpos
      rw [if_pos rfl] at h2
      exact h2
    simp [Map.LoadOrStore, hfS]

theorem loadOrStore_spec_inst :
    ((Make (fun k => k) [(3 : Int)] : Map Nat Nat).LoadOrStore 5 7
      = ((7, false), (Make (fun k => k) [(3 : Int)] : Map Nat Nat).Store 5 7)) ∧
    ((((Make (fun k => k) [(3 : Int)] : Map Nat Nat).LoadOrStore 5 7).2).LoadOrStore 5 9
      = ((7, true), ((Make (fun k => k) [(3 : Int)] : Map Nat Nat).LoadOrStore 5 7).2)) :=
  (loadOrStore_spec (Make (fun k => k) [(3 : Int)] : Map Nat Nat) 5 7 9 (by decide)).2
    (by decide)

/-- C3: `Swap(k, v)` returns the prior binding (value and presence flag) and
stores `v` unconditionally; after `Store(k, v₁)`, `Swap(k, v₂)` returns
`(v₁, true)` and a following `Load(k)` returns `(v₂, true)`. -/
theorem swap_spec (m : Map K V) (k : K) (v v₁ v₂ : V)
    (hpos : 0 < m.buckets.length) :
    ((m.Swap k v).1 = ((m.find k).getD default, (m.find k).isSome)) ∧
    ((m.Swap k v).2.find k = some v) ∧
    (((m.Store k v₁).Swap k v₂).1 = (v₁, true)) ∧
    (((m.Store k v₁).Swap k v₂).2.Load k = (v₂, true)) := by
  have hfS : ∀ w : V, (m.Store k w).find k = some w := fun w => by
    have h := find_Store m k k w hpos
    rw [if_pos rfl] at h
    exact h
  refine ⟨rfl, hfS v, ?_, ?_⟩
  · show (((m.Store k v₁).find k).getD default, ((m.Store k v₁).find k).isSome) = (v₁, true)
    rw [hfS v₁]
    rfl
  · show ((m.Store k v₁).Store k v₂).Load k = (v₂, true)
    have hlen : 0 < (m.Store k v₁).buckets.length := by rw [length_Store]; exact hpos
    have h := find_Store (m.Store k v₁) k k v₂ hlen
    rw [if_pos rfl] at h
    simp [Map.Load, h]

theorem swap_spec_inst :
    ((((Make (fun k => k) [(3 : Int)] : Map Nat Nat).Store 5 7).Swap 5 9).1 = (7, true)) ∧
    ((((Make (fun k => k) [(3 : Int)] : Map Nat Nat).Store 5 7).Swap 5 9).2.Load 5
      = (9, true)) :=
  ⟨(swap_spec (Make (fun k => k) [(3 : Int)] : Map Nat Nat) 5 0 7 9 (by decide)).2.2.1,
   (swap_spec (Make (fun k => k) [(3 : Int)] : Map Nat Nat) 5 0 7 9 (by decide)).2.2.2⟩

/-- C4: `LoadOrStoreFunc(k, ctor)` invokes the constructor exactly once when `k`
is absent — storing and returning its result with `loaded = false` — and zero
times when `k` is present, returning the existing value with `loaded = true`
and leaving the map unchanged (the invocation count is the instrumented third
component). -/
theorem loadOrStoreFunc_calls (m : Map K V) (k : K) (f : Unit → V)
    (hpos : 0 < m.buckets.length) :
    ((m.LoadOrStoreFunc k f).2.2 = if (m.find k).isSome then 0 else 1) ∧
    (∀ w, m.find k = some w → m.LoadOrStoreFunc k f = ((w, true), m, 0)) ∧
    (m.find k = none →
      m.LoadOrStoreFunc k f = ((f (), false), m.Store k (f ()), 1) ∧
      (m.Store k (f ())).Load k = (f (), true)) := by
  refine ⟨?_, ?_, ?_⟩
  · rcases h : m.find k with _ | w <;> simp [Map.LoadOrStoreFunc, h]
  · intro w hw
    simp [Map.LoadOrStoreFunc, hw]
  · intro h
    refine ⟨by simp [Map.LoadOrStoreFunc, h], ?_⟩
    have h2 := find_Store m k k (f ()) hpos
    rw [if_pos rfl] at h2
    simp [Map.Load, h2]

theorem loadOrStoreFunc_calls_inst :
    (((Make (fun k => k) [(3 : Int)] : Map Nat Nat).LoadOrStoreFunc 5 (fun _ => 42)).2.2 = 1) ∧
    ((((Make (fun k => k) [(3 : Int)] : Map Nat Nat).Store 5 7).LoadOrStoreFunc 5
        (fun _ => 42)) = ((7, true), (Make (fun k => k) [(3 : Int)] : Map Nat Nat).Store 5 7, 0)) :=
  ⟨((loadOrStoreFunc_calls (Make (fun k => k) [(3 : Int)] : Map Nat Nat) 5 (fun _ => 42)
      (by decide)).2.2 (by decide)).1 ▸ rfl,
   (loadOrStoreFunc_calls ((Make (fun k => k) [(3 : Int)] : Map Nat Nat).Store 5 7) 5
      (fun _ => 42) (by decide)).2.1 7 (by decide)⟩

theorem make_bucket_count_inst :
    ((Make (fun k => k) [(3 : Int)] : Map Nat Nat).buckets.length = (3 : Int).toNat) ∧
    ((Make (fun k => k) ([] : List Int) : Map Nat Nat).buckets.length = 31) ∧
    ((Make (fun k => k) [(-2 : Int)] : Map Nat Nat).buckets.length = 31) ∧
    (1 ≤ (Make (fun k => k) [(0 : Int)] : Map Nat Nat).buckets.length) :=
  ⟨(make_bucket_count (fun k => k) [(0 : Int)] 3 []).1 (by decide),
   (make_bucket_count (fun k => k) [(0 : Int)] 3 []).2.1,
   (make_bucket_count (fun k => k) [(0 : Int)] (-2) []).2.2.1 (by decide),
   (make_bucket_count (fun k => k) [(0 : Int)] 3 []).2.2.2⟩

theorem frame_other_keys_inst :
    ((((Make (fun k => k) [(3 : Int)] : Map Nat Nat).Store 2 4).Store 5 7).Load 2
      = ((Make (fun k => k) [(3 : Int)] : Map Nat Nat).Store 2 4).Load 2) ∧
    ((((Make (fun k => k) [(3 : Int)] : Map Nat Nat).Store 2 4).Swap 5 7).2.Load 2
      = ((Make (fun k => k) [(3 : Int)] : Map Nat Nat).Store 2 4).Load 2) :=
  ⟨(frame_other_keys ((Make (fun k => k) [(3 : Int)] : Map Nat Nat).Store 2 4) 5 2 7
      (fun _ => 0) (by decide) (by decide)).1,
   (frame_other_keys ((Make (fun k => k) [(3 : Int)] : Map Nat Nat).Store 2 4) 5 2 7
      (fun _ => 0) (by decide) (by decide)).2.2.2.2.2⟩

theorem iterEntries_count (g : Nat → K → V → Bool) (es : List (K × V)) (c : Nat) :
    (iterEntries (countedYield g) es c).1.1 =
      c + (iterEntries (countedYield g) es c).1.2.length := by
  induction es generalizing c with
  | nil => simp [iterEntries]
  | cons p tl ih =>
    obtain ⟨pk, pv⟩ := p
    by_cases h : g c pk pv
    · simp only [iterEntries, countedYield, h, if_true, List.length_cons]
      rw [ih (c + 1)]
      omega
    · simp [iterEntries, countedYield, h]

theorem iterEntries_le (g : Nat → K → V → Bool) (N : Nat)
    (hg : ∀ k v, g (N - 1) k v = false) (es : List (K × V)) (c : Nat) (hc : c < N) :
    (iterEntries (countedYield g) es c).1.1 ≤ N ∧
    ((iterEntries (countedYield g) es c).2 = false →
      (iterEntries (countedYield g) es c).1.1 < N) := by
  induction es generalizing c with
  | nil => exact ⟨Nat.le_of_lt hc, fun _ => hc⟩
  | cons p tl ih =>
    obtain ⟨pk, pv⟩ := p
    by_cases h : g c pk pv
    · have hcn : c + 1 < N := by
        rcases Nat.lt_or_ge (c + 1) N with h' | h'
        · exact h'
        · have hc1 : c = N - 1 := by omega
          rw [hc1, hg pk pv] at h
          exact absurd h (by simp)
      simpa only [iterEntries, countedYield, h, if_true] using ih (c + 1) hcn
    · have hE : iterEntries (countedYield g) ((pk, pv) :: tl) c = ((c + 1, [(pk, pv)]), true) := by
        simp [iterEntries, countedYield, h]
      rw [hE]
      refine ⟨?_, by simp⟩
      show c + 1 ≤ N
      omega

theorem iterBuckets_count (g : Nat → K → V → Bool) (bs : List (List (K × V))) (c : Nat) :
    (iterBuckets (countedYield g) bs c).1 =
      c + (iterBuckets (countedYield g) bs c).2.length := by
  induction bs generalizing c with
  | nil => simp [iterBuckets]
  | cons es rest ih =>
    rcases hbr : (iterEntries (countedYield g) es c).2 with _ | _
    · simp only [iterBuckets, hbr, if_false, Bool.false_eq_true, List.length_append]
      rw [ih, iterEntries_count g es c]
      omega
    · simp only [iterBuckets, hbr, if_true]
      exact iterEntries_count g es c

theorem iterBuckets_le (g : Nat → K → V → Bool) (N : Nat)
    (hg : ∀ k v, g (N - 1) k v = false) (bs : List (List (K × V))) (c : Nat)
    (hc : c < N) : (iterBuckets (countedYield g) bs c).1 ≤ N := by
  induction bs generalizing c with
  | nil => exact Nat.le_of_lt hc
  | cons es rest ih =>
    obtain ⟨hle, hbr⟩ := iterEntries_le g N hg es c hc
    rcases h : (iterEntries (countedYield g) es c).2 with _ | _
    · simp only [iterBuckets, h, if_false, Bool.false_eq_true]
      exact ih _ (hbr h)
    · simp only [iterBuckets, h, if_true]
      exact hle

/-- C7: during a single `Iter` pass (in any bucket order the shuffle may have
produced), a callback that returns `false` on its `N`-th invocation stops the
whole iteration, across buckets: the pass hands the callback at most `N` pairs
in total. -/
theorem iter_early_stop (m : Map K V) (order : List Nat) (g : Nat → K → V → Bool)
    (N : Nat) (hN : 1 ≤ N) (hg : ∀ k v, g (N - 1) k v = false) :
    (m.iterPass order (countedYield g) 0).2.length ≤ N := by
  rw [Map.iterPass]
  have h1 := iterBuckets_count g (order.map (fun i => (m.buckets.getD i ⟨none⟩).entries)) 0
  have h2 := iterBuckets_le g N hg (order.map (fun i => (m.buckets.getD i ⟨none⟩).entries)) 0
    (by omega)
  omega

theorem iter_early_stop_inst :
    ((((((Make (fun k => k) [(3 : Int)] : Map Nat Nat).Store 1 10).Store 2 20).Store 3 30).Store 4 40).iterPass
        [0, 1, 2] (countedYield (fun c _ _ => decide (c + 1 < 2))) 0).2.length ≤ 2 :=
  iter_early_stop
    (((((Make (fun k => k) [(3 : Int)] : Map Nat Nat).Store 1 10).Store 2 20).Store 3 30).Store 4 40)
    [0, 1, 2] (fun c _ _ => decide (c + 1 < 2)) 2 (by decide) (fun _ _ => rfl)

theorem length_runOp (m : Map K V) (op : Op K V) :
    ((m.runOp op).2).buckets.length = m.buckets.length := by
  cases op with
  | load k => rfl
  | store k v => exact length_Store m k v
  | del k => exact length_Delete m k
  | loadAndDelete k =>
    rcases h : m.find k with _ | w <;>
      simp [Map.runOp, Map.LoadAndDelete, h, length_Delete]
  | loadOrStore k v =>
    rcases h : m.find k with _ | w <;>
      simp [Map.runOp, Map.LoadOrStore, h, length_Store]
  | loadOrStoreFunc k v =>
    rcases h : m.find k with _ | w <;>
      simp [Map.runOp, Map.LoadOrStoreFunc, h, length_Store]
  | swap k v => exact length_Store m k v
  | clear => exact length_Clear m

theorem runOp_congr (m₁ m₂ : Map K V) (op : Op K V)
    (hf : ∀ q, m₁.find q = m₂.find q)
    (h₁ : 0 < m₁.buckets.length) (h₂ : 0 < m₂.buckets.length) :
    (m₁.runOp op).1 = (m₂.runOp op).1 ∧
    (∀ q, ((m₁.runOp op).2).find q = ((m₂.runOp op).2).find q) := by
  cases op with
  | load k =>
    refine ⟨?_, hf⟩
    show some (m₁.Load k) = some (m₂.Load k)
    rw [Map.Load, Map.Load, hf k]
  | store k v =>
    refine ⟨rfl, fun q => ?_⟩
    show (m₁.Store k v).find q = (m₂.Store k v).find q
    rw [find_Store _ _ _ _ h₁, find_Store _ _ _ _ h₂, hf q]
  | del k =>
    refine ⟨rfl, fun q => ?_⟩
    show (m₁.Delete k).find q = (m₂.Delete k).find q
    rw [find_Delete _ _ _ h₁, find_Delete _ _ _ h₂, hf q]
  | loadAndDelete k =>
    rcases h : m₁.find k with _ | w
    · have hk2 : m₂.find k = none := by rw [← hf k, h]
      refine ⟨?_, fun q => ?_⟩
      · show some (m₁.LoadAndDelete k).1 = some (m₂.LoadAndDelete k).1
        simp [Map.LoadAndDelete, h, hk2]
      · show ((m₁.LoadAndDelete k).2).find q = ((m₂.LoadAndDelete k).2).find q
        simp only [Map.LoadAndDelete, h, hk2]
        exact hf q
    · have hk2 : m₂.find k = some w := by rw [← hf k, h]
      refine ⟨?_, fun q => ?_⟩
      · show some (m₁.LoadAndDelete k).1 = some (m₂.LoadAndDelete k).1
        simp [Map.LoadAndDelete, h, hk2]
      · show ((m₁.LoadAndDelete k).2).find q = ((m₂.LoadAndDelete k).2).find q
        simp only [Map.LoadAndDelete, h, hk2]
        show (m₁.Delete k).find q = (m₂.Delete k).find q
        rw [find_Delete _ _ _ h₁, find_Delete _ _ _ h₂, hf q]
  | loadOrStore k v =>
    rcases h : m₁.find k with _ | w
    · have hk2 : m₂.find k = none := by rw [← hf k, h]
      refine ⟨?_, fun q => ?_⟩
      · show some (m₁.LoadOrStore k v).1 = some (m₂.LoadOrStore k v).1
        simp [Map.LoadOrStore, h, hk2]
      · show ((m₁.LoadOrStore k v).2).find q = ((m₂.LoadOrStore k v).2).find q
        simp only [Map.LoadOrStore, h, hk2]
        show (m₁.Store k v).find q = (m₂.Store k v).find q
        rw [find_Store _ _ _ _ h₁, find_Store _ _ _ _ h₂, hf q]
    · have hk2 : m₂.find k = some w := by rw [← hf k, h]
      refine ⟨?_, fun q => ?_⟩
      · show some (m₁.LoadOrStore k v).1 = some (m₂.LoadOrStore k v).1
        simp [Map.LoadOrStore, h, hk2]
      · show ((m₁.LoadOrStore k v).2).find q = ((m₂.LoadOrStore k v).2).find q
        simp only [Map.LoadOrStore, h, hk2]
        exact hf q
  | loadOrStoreFunc k v =>
    rcases h : m₁.find k with _ | w
    · have hk2 : m₂.find k = none := by rw [← hf k, h]
      refine ⟨?_, fun q => ?_⟩
      · show some (m₁.LoadOrStoreFunc k (fun _ => v)).1
            = some (m₂.LoadOrStoreFunc k (fun _ => v)).1
        simp [Map.LoadOrStoreFunc, h, hk2]
      · show ((m₁.LoadOrStoreFunc k (fun _ => v)).2.1).find q
            = ((m₂.LoadOrStoreFunc k (fun _ => v)).2.1).find q
        simp only [Map.LoadOrStoreFunc, h, hk2]
        show (m₁.Store k v).find q = (m₂.Store k v).find q
        rw [find_Store _ _ _ _ h₁, find_Store _ _ _ _ h₂, hf q]
    · have hk2 : m₂.find k = some w := by rw [← hf k, h]
      refine ⟨?_, fun q => ?_⟩
      · show some (m₁.LoadOrStoreFunc k (fun _ => v)).1
            = some (m₂.LoadOrStoreFunc k (fun _ => v)).1
        simp [Map.LoadOrStoreFunc, h, hk2]
      · show ((m₁.LoadOrStoreFunc k (fun _ => v)).2.1).find q
            = ((m₂.LoadOrStoreFunc k (fun _ => v)).2.1).find q
        simp only [Map.LoadOrStoreFunc, h, hk2]
        exact hf q
  | swap k v =>
    refine ⟨?_, fun q => ?_⟩
    · show some ((m₁.find k).getD default, (m₁.find k).isSome)
          = some ((m₂.find k).getD default, (m₂.find k).isSome)
      rw [hf k]
    · show (m₁.Store k v).find q = (m₂.Store k v).find q
      rw [find_Store _ _ _ _ h₁, find_Store _ _ _ _ h₂, hf q]
  | clear =>
    refine ⟨rfl, fun q => ?_⟩
    show (m₁.Clear).find q = (m₂.Clear).find q
    rw [find_Clear, find_Clear]

theorem runOps_congr (ops : List (Op K V)) (m₁ m₂ : Map K V)
    (hf : ∀ q, m₁.find q = m₂.find q)
    (h₁ : 0 < m₁.buckets.length) (h₂ : 0 < m₂.buckets.length) :
    m₁.runOps ops = m₂.runOps ops := by
  induction ops generalizing m₁ m₂ with
  | nil => rfl
  | cons op rest ih =>
    obtain ⟨hr, hF⟩ := runOp_congr m₁ m₂ op hf h₁ h₂
    show (m₁.runOp op).1 :: (m₁.runOp op).2.runOps rest
        = (m₂.runOp op).1 :: (m₂.runOp op).2.runOps rest
    rw [hr, ih _ _ hF (by rw [length_runOp]; exact h₁) (by rw [length_runOp]; exact h₂)]

/-- C9: a map built with one bucket and a map built with any bucket count
greater than one produce identical visible outcomes (returned values and
flags) for every sequence of single-key and whole-map operations, and with
exactly one bucket the routing hash is the constant 0. -/
theorem one_bucket_equiv (hash : K → Nat) (n : Int) (ops : List (Op K V)) (hn : 1 < n) :
    (Make hash [n] : Map K V).runOps ops = (Make hash [1] : Map K V).runOps ops ∧
    (∀ q, (Make hash [(1 : Int)] : Map K V).hash q = 0) := by
  constructor
  · apply runOps_congr
    · intro q
      rw [find_Make, find_Make]
    · rw [length_Make]
      show 0 < if 0 < n then n.toNat else 31
      split <;> omega
    · rw [length_Make]
      show 0 < if 0 < (1 : Int) then (1 : Int).toNat else 31
      split <;> omega
  · intro q
    rfl

theorem one_bucket_equiv_inst :
    ((Make (fun k => k) [(3 : Int)] : Map Nat Nat).runOps
        [Op.store 1 10, Op.load 1, Op.loadOrStore 1 11, Op.swap 1 12,
         Op.loadAndDelete 1, Op.loadOrStoreFunc 2 42, Op.load 2, Op.del 2,
         Op.load 2, Op.clear, Op.load 1]
      = (Make (fun k => k) [(1 : Int)] : Map Nat Nat).runOps
        [Op.store 1 10, Op.load 1, Op.loadOrStore 1 11, Op.swap 1 12,
         Op.loadAndDelete 1, Op.loadOrStoreFunc 2 42, Op.load 2, Op.del 2,
         Op.load 2, Op.clear, Op.load 1]) ∧
    (∀ q, (Make (fun k => k) [(1 : Int)] : Map Nat Nat).hash q = 0) :=
  one_bucket_equiv (fun k => k) 3
    [Op.store 1 10, Op.load 1, Op.loadOrStore 1 11, Op.swap 1 12,
     Op.loadAndDelete 1, Op.loadOrStoreFunc 2 42, Op.load 2, Op.del 2,
     Op.load 2, Op.clear, Op.load 1] (by decide)

end BucketMap
